import Mathlib

/-!
Verification of the join-code room coordination client (src/frontend) and of
the spec-modelled server room state, against the natural-language spec.

The client code (React, src/frontend/src/*.jsx) is embedded as pure Lean
functions over an explicit client-state record.  JSON envelopes are embedded
as a record of optional fields mirroring the payload keys the client reads
and writes (type, path, value, content, user, editor, files).  A JS value
that is null or undefined is modelled as none.
-/

namespace JoinCode

/-- A client-side file entry, as kept in the App state: a path and the full
text content (src/frontend/src/App.jsx keeps files as a list of
objects with fields path and content). -/
structure FileEntry where
  path : String
  content : String
deriving Repr, DecidableEq

/-- A protocol envelope.  Mirrors the JSON payload keys the client code reads
or writes; a field that is absent from a given payload is none.  The files
field carries the ready snapshot, an object mapping path to content,
modelled as an association list in key order. -/
structure Msg where
  type : String
  path : Option String := none
  value : Option String := none
  content : Option String := none
  user : Option String := none
  editor : Option String := none
  files : Option (List (String × String)) := none
deriving Repr, DecidableEq

/-- JavaScript coercion used at Editor.jsx line 34: the expression
(data.editor or null) maps the empty string (falsy) and undefined to null. -/
def jsOrNull : Option String → Option String
  | none => none
  | some s => if s = "" then none else some s

/-- JavaScript truthiness of an optional string: undefined, null and the
empty string are falsy. -/
def jsTruthy : Option String → Bool
  | none => false
  | some s => s ≠ ""

/-- The combined client state of one browser tab: the Editor.jsx component
state (editor, suggestions, requests, initialisedRef) together with the App
state it closes over (files, currentFile). -/
structure ClientState where
  editor : Option String
  suggestions : List Msg
  requests : List String
  initialised : Bool
  files : List FileEntry
  currentFile : Option String
deriving Repr, DecidableEq

/-- The initial client state of Room in App.jsx: one default file main.py
with empty content, no editor known yet. -/
def initState : ClientState :=
  { editor := none, suggestions := [], requests := [], initialised := false,
    files := [{ path := "main.py", content := "" }], currentFile := some "main.py" }

namespace Editor

/-- The websocket message handler of Editor.jsx (handleMessage, lines
30-89): dispatch on the envelope type.  A request_turn envelope without a
user field is modelled as ignored (the JS would insert the undefined value,
which never equals any identity). -/
def handleMessage (username : String) (s : ClientState) (data : Msg) : ClientState :=
  if data.type = "ready" then
    let s1 := { s with editor := jsOrNull data.editor }
    match data.files with
    | some snapshot =>
        if s1.initialised then s1
        else { s1 with
                 files := snapshot.map (fun pc => { path := pc.1, content := pc.2 }),
                 initialised := true }
    | none => s1
  else if data.type = "turn_update" then
    { s with editor := data.editor,
             requests := s.requests.filter (fun u => some u ≠ data.editor) }
  else if data.type = "request_turn" then
    match data.user with
    | some u =>
        if s.editor = some username ∧ u ∉ s.requests then
          { s with requests := s.requests ++ [u] }
        else s
    | none => s
  else if data.type = "deny_turn" then
    s
  else if data.type = "code" then
    match data.path with
    | some p =>
        if p ≠ "" then
          { s with files := (s.files.map
              (fun f => if f.path = p then { f with content := data.value.getD "" } else f)) }
        else s
    | none => s
  else if data.type = "file_create" then
    match data.path with
    | some p =>
        if p ≠ "" then
          { s with files :=
              (if s.files.any (fun f => f.path = p) then
                (s.files.map
                  (fun f => if f.path = p then { f with content := data.content.getD "" } else f))
              else s.files ++ [{ path := p, content := data.content.getD "" }]) }
        else s
    | none => s
  else if data.type = "suggestion" then
    if s.editor = some username then { s with suggestions := s.suggestions ++ [data] }
    else s
  else s

/-- onChange of Editor.jsx (lines 95-99): only the active editor with a
selected file updates the file and broadcasts a code envelope; the result is
the new client state together with the list of envelopes handed to send. -/
def onChange (username : String) (s : ClientState) (value : String) :
    ClientState × List Msg :=
  match s.currentFile with
  | none => (s, [])
  | some cf =>
      if s.editor ≠ some username ∨ cf = "" then (s, [])
      else
        ({ s with files := (s.files.map
             (fun f => if f.path = cf then { f with content := value } else f)) },
         [{ type := "code", path := some cf, value := some value }])

/-- requestTurn of Editor.jsx (lines 101-105): a no-op for the current
editor, otherwise sends one request_turn envelope; the local state is never
changed. -/
def requestTurn (username : String) (s : ClientState) : ClientState × List Msg :=
  if s.editor = some username then (s, [])
  else (s, [{ type := "request_turn", user := some username }])

/-- approveTurn of Editor.jsx (lines 108-111): sends approve_turn for the
target and removes the target from the local pending requests. -/
def approveTurn (target : String) (s : ClientState) : ClientState × List Msg :=
  ({ s with requests := s.requests.filter (fun u => u ≠ target) },
   [{ type := "approve_turn", user := some target }])

/-- denyTurn of Editor.jsx (lines 112-115): sends deny_turn for the target
and removes the target from the local pending requests. -/
def denyTurn (target : String) (s : ClientState) : ClientState × List Msg :=
  ({ s with requests := s.requests.filter (fun u => u ≠ target) },
   [{ type := "deny_turn", user := some target }])

/-- proposeChange of Editor.jsx (lines 117-125): the prompt result is passed
in as an optional string; a falsy result (cancel or empty) sends nothing. -/
def proposeChange (username : String) (s : ClientState) (promptResult : Option String) :
    List Msg :=
  match s.currentFile with
  | none => []
  | some cf =>
      if cf = "" then []
      else
        match promptResult with
        | some sug =>
            if sug = "" then []
            else [{ type := "suggestion", user := some username, path := some cf,
                    value := some sug }]
        | none => []

/-- The accept callback passed to the Suggestions panel in Editor.jsx
(lines 181-185): only the active editor, and only for the currently
selected file, applies the suggested content and broadcasts it as a code
envelope. -/
def acceptSuggestion (username : String) (s : ClientState) (sug : Msg) :
    ClientState × List Msg :=
  if s.editor ≠ some username then (s, [])
  else if sug.path ≠ s.currentFile then (s, [])
  else
    match sug.path with
    | some p =>
        ({ s with files := (s.files.map
             (fun f => if f.path = p then { f with content := sug.value.getD "" } else f)) },
         [{ type := "code", path := some p, value := sug.value }])
    | none => (s, [])

end Editor

namespace FileExplorer

/-- createFile of FileExplorer.jsx (lines 47-58): prompts for a path; a
falsy path or an already existing path aborts (the latter with an alert),
otherwise the file is appended empty, selected, and a file_create envelope
is sent.  Result: new files, new currentFile, sent envelopes. -/
def createFile (promptResult : Option String) (files : List FileEntry)
    (currentFile : Option String) :
    List FileEntry × Option String × List Msg :=
  match promptResult with
  | none => (files, currentFile, [])
  | some path =>
      if path = "" then (files, currentFile, [])
      else if files.any (fun f => f.path = path) then (files, currentFile, [])
      else (files ++ [{ path := path, content := "" }], some path,
            [{ type := "file_create", path := some path, content := some "" }])

/-- One iteration of the upload loop of FileExplorer.jsx onUpload (lines
62-77): if a file with the same path exists its content is replaced,
otherwise the file is appended; in both cases a file_create envelope is
sent. -/
def onUploadStep (path text : String) (files : List FileEntry) :
    List FileEntry × List Msg :=
  ((if files.any (fun f => f.path = path) then
      (files.map (fun f => if f.path = path then { f with content := text } else f))
    else files ++ [{ path := path, content := text }]),
   [{ type := "file_create", path := some path, content := some text }])

end FileExplorer

/-- JavaScript String.prototype.trim, modelled on the character list: drop
whitespace from both ends. -/
def jsTrim (s : String) : String :=
  String.mk (((s.data.dropWhile Char.isWhitespace).reverse.dropWhile
      Char.isWhitespace).reverse)

namespace Chat

/-- sendMessage of Chat.jsx (lines 84-89): trims the input; an empty result
sends nothing, otherwise one chat envelope whose value is the username, a
colon-space separator, and the trimmed text; the input box is then
cleared. -/
def sendMessage (username input : String) : List Msg × String :=
  if jsTrim input = "" then ([], input)
  else ([{ type := "chat", value := some (username ++ ": " ++ jsTrim input) }], "")

end Chat

namespace EditorAlt

/-- requestTurn of the alternative editor component in src/unnamed/part_002
(lines 102-104): unconditionally sends a take_turn envelope carrying the
local username.  Its other send sites (onChange, proposeChange) have the
same shape as the ones of Editor.jsx embedded above. -/
def requestTurn (username : String) : List Msg :=
  [{ type := "take_turn", user := some username }]

end EditorAlt

namespace App

/-- The browser readyState of the room websocket; opened models the OPEN
constant. -/
inductive ReadyState where
  | connecting
  | opened
  | closing
  | closed
deriving Repr, DecidableEq

/-- The sending-side state of the room websocket in App.jsx: its
readyState, the ordered list of envelopes already written to the wire, and
the pendingRef queue of envelopes accepted before the socket opened. -/
structure SocketState where
  readyState : ReadyState
  sentWire : List Msg
  pending : List Msg
deriving Repr, DecidableEq

/-- The application-level join envelope sent first in onOpen
(App.jsx line 38). -/
def joinMsg (username : String) : Msg :=
  { type := "join", user := some username }

/-- safeSend of App.jsx (lines 65-75), for an existing socket: if the
socket is OPEN the payload is written to the wire immediately, otherwise it
is pushed on the pendingRef queue. -/
def safeSend (st : SocketState) (payload : Msg) : SocketState :=
  match st.readyState with
  | .opened => { st with sentWire := st.sentWire ++ [payload] }
  | _ => { st with pending := st.pending ++ [payload] }

/-- onOpen of App.jsx (lines 36-44), composed with the browser transition
of readyState to OPEN: writes the join envelope first, then flushes the
queued payloads in order, then clears the queue. -/
def onOpen (username : String) (st : SocketState) : SocketState :=
  { readyState := .opened,
    sentWire := st.sentWire ++ [joinMsg username] ++ st.pending,
    pending := [] }

/-- Send a list of payloads through safeSend in order. -/
def sendAll (st : SocketState) (ps : List Msg) : SocketState :=
  ps.foldl safeSend st

end App

namespace Server

/-- Modelled from the spec: the backend RoomState component is not part of
the sources (only the frontend, a Dockerfile and a database init script
are).  A server-side FileEntry per spec section 3: full text content and a
monotonically incrementing version counter. -/
structure ServerFile where
  content : String
  version : Nat
deriving Repr, DecidableEq

/-- Modelled from the spec: per-room authoritative data (spec section 3) —
the file map as an association list with unique keys, the optional lease
holder, and the ordered pending request queue. -/
structure RoomState where
  files : List (String × ServerFile)
  editor : Option String
  pendingRequests : List String
deriving Repr, DecidableEq

/-- Look up the entry of a path in a server file map. -/
def lookupFile : String → List (String × ServerFile) → Option ServerFile
  | _, [] => none
  | p, kv :: rest => if kv.1 = p then some kv.2 else lookupFile p rest

/-- Replace the entry of a path in a server file map. -/
def updateFile (p : String) (e : ServerFile) :
    List (String × ServerFile) → List (String × ServerFile)
  | [] => []
  | kv :: rest =>
      if kv.1 = p then (p, e) :: updateFile p e rest
      else kv :: updateFile p e rest

/-- Delivery mode of an outbound event (spec section 4.3). -/
inductive Delivery where
  | all
  | targeted (identity : String)
deriving Repr, DecidableEq

/-- An outbound event: a delivery mode and the envelope to deliver. -/
structure Event where
  mode : Delivery
  payload : Msg
deriving Repr, DecidableEq

/-- Modelled from the spec: the public RoomState operations of spec
section 4.1, as a closed operation type. -/
inductive RoomOp where
  | join (identity : String)
  | createFile (path content : String)
  | editFile (identity path content : String)
  | requestTurn (identity : String)
  | approveTurn (identity target : String)
  | denyTurn (identity target : String)
  | disconnect (identity : String)
  | submitSuggestion (author path content : String)
deriving Repr, DecidableEq

/-- The snapshot sent to a joining member: the current file map as a path
to content object. -/
def snapshotOf (s : RoomState) : List (String × String) :=
  s.files.map (fun kv => (kv.1, kv.2.content))

/-- Modelled from the spec: one atomic RoomState operation (spec section
4.1), returning the new room state and the outbound events it emits.
join returns the snapshot to the joiner and alters nothing; createFile is
create-only and fails with AlreadyExists on a present path; editFile
succeeds only for the current editor on an existing path and increments
that file version by one; requestTurn auto-grants on vacancy, otherwise
queues a non-editor non-duplicate requester and notifies the editor only;
approveTurn and denyTurn act only for the current editor; disconnect
removes the identity from the queue and vacates the lease it held;
submitSuggestion stores nothing and is delivered to the editor only. -/
def applyOp (s : RoomState) : RoomOp → RoomState × List Event
  | .join identity =>
      (s, [{ mode := .targeted identity,
             payload := { type := "ready", editor := s.editor, files := some (snapshotOf s) } }])
  | .createFile p c =>
      if (lookupFile p s.files).isSome then (s, [])
      else ({ s with files := s.files ++ [(p, { content := c, version := 1 })] },
            [{ mode := .all,
               payload := { type := "file_create", path := some p, content := some c } }])
  | .editFile identity p c =>
      if s.editor = some identity then
        match lookupFile p s.files with
        | some e =>
            ({ s with files := updateFile p { content := c, version := e.version + 1 } s.files },
             [{ mode := .all,
                payload := { type := "code", path := some p, content := some c } }])
        | none => (s, [])
      else (s, [])
  | .requestTurn identity =>
      match s.editor with
      | none =>
          ({ s with editor := some identity },
           [{ mode := .all, payload := { type := "turn_update", editor := some identity } }])
      | some e =>
          if identity = e then (s, [])
          else if identity ∈ s.pendingRequests then (s, [])
          else ({ s with pendingRequests := s.pendingRequests ++ [identity] },
                [{ mode := .targeted e,
                   payload := { type := "request_turn", user := some identity } }])
  | .approveTurn identity target =>
      if s.editor = some identity then
        ({ s with editor := some target,
                  pendingRequests := s.pendingRequests.filter (fun u => u ≠ target) },
         [{ mode := .all, payload := { type := "turn_update", editor := some target } }])
      else (s, [])
  | .denyTurn identity target =>
      if s.editor = some identity then
        ({ s with pendingRequests := s.pendingRequests.filter (fun u => u ≠ target) },
         [{ mode := .targeted target,
            payload := { type := "deny_turn", user := some target } }])
      else (s, [])
  | .disconnect identity =>
      if s.editor = some identity then
        ({ s with editor := none,
                  pendingRequests := s.pendingRequests.filter (fun u => u ≠ identity) },
         [{ mode := .all, payload := { type := "turn_update", editor := none } }])
      else ({ s with pendingRequests := s.pendingRequests.filter (fun u => u ≠ identity) }, [])
  | .submitSuggestion author p c =>
      (s, match s.editor with
          | some e => [{ mode := .targeted e,
                         payload := { type := "suggestion", user := some author,
                                      path := some p, content := some c } }]
          | none => [])

/-- Modelled from the spec: the persistence collaborator (spec section 6)
is invoked with the file snapshot after each committed file mutation, and
only then; the durable writes an operation causes are therefore the file
snapshots of the states whose file map the operation changed. -/
def persistCalls (s : RoomState) (op : RoomOp) : List (List (String × String)) :=
  if (applyOp s op).1.files = s.files then [] else [snapshotOf (applyOp s op).1]

/-- Run a list of room operations from a state. -/
def runOps (s : RoomState) (ops : List RoomOp) : RoomState :=
  ops.foldl (fun t op => (applyOp t op).1) s

end Server

/-! Client-side invariant of the turn-taking state (spec sections 3 and 8):
the lease holder is absent or one identity and never sits in the pending
request list, which holds no duplicates. -/

/-- The client-side room invariant: no duplicate pending requests, and the
recorded editor never appears among them. -/
abbrev Inv (s : ClientState) : Prop :=
  s.requests.Nodup ∧ ∀ u ∈ s.requests, s.editor ≠ some u

/-- Environment validity of one incoming envelope at a client state,
modelled from the spec: a request_turn notice is sent to the current editor
only and carries a requester different from that editor (spec section 4.1),
and a ready envelope is the reply to join, hence the first message of the
stream, before any request accumulated (spec section 6). -/
abbrev ValidMsg (s : ClientState) (m : Msg) : Prop :=
  (m.type = "request_turn" → m.user ≠ s.editor) ∧
  (m.type = "ready" → s.requests = [])

/-- Process a list of incoming envelopes in order. -/
def run (username : String) (s : ClientState) (ms : List Msg) : ClientState :=
  ms.foldl (Editor.handleMessage username) s

/-- A trace of incoming envelopes is valid from a state when each envelope
is valid at the state it is processed in. -/
def validFrom (username : String) : ClientState → List Msg → Prop
  | _, [] => True
  | s, m :: ms => ValidMsg s m ∧ validFrom username (Editor.handleMessage username s m) ms

/-- Content of the file at a path in a client file list (first match, as
Array.prototype.find does in Editor.jsx line 127). -/
def getContent : String → List FileEntry → Option String
  | _, [] => none
  | p, f :: rest => if f.path = p then some f.content else getContent p rest

/-- The closed set of router action tags the spec table (section 6) allows
a client to send. -/
def allowedTypes : List String :=
  ["join", "file_create", "code", "request_turn", "approve_turn", "deny_turn", "suggestion"]

/-- The envelope types the client code actually emits: the spec table plus
the chat envelope of Chat.jsx and the take_turn envelope of the
alternative editor in src/unnamed/part_002. -/
def emittedTypes : List String :=
  allowedTypes ++ ["chat", "take_turn"]

/-- A concrete client state used to evaluate the claims on explicit
inputs: alice holds the lease and has file a.py selected. -/
def sAlice : ClientState :=
  { editor := some "alice", suggestions := [], requests := [], initialised := true,
    files := [{ path := "a.py", content := "x=1" }], currentFile := some "a.py" }

/-- A concrete valid trace: the ready snapshot names alice as editor, then
bob requests the turn. -/
def traceW : List Msg :=
  [{ type := "ready", editor := some "alice", files := some [("main.py", "")] },
   { type := "request_turn", user := some "bob" }]

/-- A concrete first ready envelope carrying a snapshot. -/
def readyW : Msg :=
  { type := "ready", editor := some "alice", files := some [("a.py", "x=1")] }

/-- A concrete second ready envelope, with another snapshot and editor. -/
def readyW2 : Msg :=
  { type := "ready", editor := some "bob", files := some [("b.py", "y")] }

/-- A concrete suggestion envelope from bob. -/
def sugMsg : Msg :=
  { type := "suggestion", user := some "bob", path := some "a.py", value := some "x=3" }

/-- A concrete chat envelope, used as a queued payload. -/
def chatW : Msg := { type := "chat", value := some "alice: hi" }

/-- A concrete server room: alice holds the lease, a.py is at version 1. -/
def roomW : Server.RoomState :=
  { files := [("a.py", { content := "x=1", version := 1 })],
    editor := some "alice", pendingRequests := [] }

/-- A websocket that is still connecting and has sent nothing. -/
def sock0 : App.SocketState :=
  { readyState := .connecting, sentWire := [], pending := [] }

/-- An operation is an accepted write of path p at room state t when it is
an editFile of p whose identity holds the lease in t. -/
def acceptedEditOn (t : Server.RoomState) (op : Server.RoomOp) (p : String) : Prop :=
  ∃ id c, op = Server.RoomOp.editFile id p c ∧ t.editor = some id

theorem run_nil (u : String) (s : ClientState) : run u s [] = s := rfl

theorem run_cons (u : String) (s : ClientState) (m : Msg) (ms : List Msg) :
    run u s (m :: ms) = run u (Editor.handleMessage u s m) ms := rfl

theorem validFrom_nil (u : String) (s : ClientState) : validFrom u s [] := trivial

theorem validFrom_cons (u : String) (s : ClientState) (m : Msg) (ms : List Msg) :
    validFrom u s (m :: ms) ↔
      ValidMsg s m ∧ validFrom u (Editor.handleMessage u s m) ms := Iff.rfl

/-! Branch lemmas for the Editor.jsx message handler. -/

theorem hm_requests_ready (u : String) (s : ClientState) (m : Msg)
    (h : m.type = "ready") :
    (Editor.handleMessage u s m).requests = s.requests := by
  unfold Editor.handleMessage
  rw [if_pos h]
  cases m.files <;> simp <;> split <;> simp

theorem hm_turn_update (u : String) (s : ClientState) (m : Msg)
    (h : m.type = "turn_update") :
    Editor.handleMessage u s m =
      { s with editor := m.editor,
               requests := s.requests.filter (fun x => some x ≠ m.editor) } := by
  unfold Editor.handleMessage
  have h1 : m.type ≠ "ready" := by simp [h]
  rw [if_neg h1, if_pos h]

theorem hm_request_turn (u : String) (s : ClientState) (m : Msg)
    (h : m.type = "request_turn") :
    Editor.handleMessage u s m =
      (match m.user with
       | some x =>
           if s.editor = some u ∧ x ∉ s.requests then
             { s with requests := s.requests ++ [x] }
           else s
       | none => s) := by
  unfold Editor.handleMessage
  have h1 : m.type ≠ "ready" := by simp [h]
  have h2 : m.type ≠ "turn_update" := by simp [h]
  rw [if_neg h1, if_neg h2, if_pos h]

theorem hm_other (u : String) (s : ClientState) (m : Msg)
    (h1 : m.type ≠ "ready") (h2 : m.type ≠ "turn_update")
    (h3 : m.type ≠ "request_turn") :
    (Editor.handleMessage u s m).requests = s.requests ∧
    (Editor.handleMessage u s m).editor = s.editor := by
  unfold Editor.handleMessage
  rw [if_neg h1, if_neg h2, if_neg h3]
  split
  · exact ⟨rfl, rfl⟩
  · split
    · cases m.path <;> simp <;> split <;> simp
    · split
      · cases m.path <;> simp <;> split <;> simp
      · split
        · split <;> simp
        · exact ⟨rfl, rfl⟩

theorem hm_ready_initialised (u : String) (s : ClientState) (m : Msg)
    (h : m.type = "ready") (hi : s.initialised = true) :
    Editor.handleMessage u s m = { s with editor := jsOrNull m.editor } := by
  unfold Editor.handleMessage
  rw [if_pos h]
  cases m.files with
  | none => rfl
  | some snapshot => simp [hi]

theorem hm_ready_first (u : String) (s : ClientState) (m : Msg)
    (F : List (String × String))
    (h : m.type = "ready") (hi : s.initialised = false) (hF : m.files = some F) :
    Editor.handleMessage u s m =
      { s with editor := jsOrNull m.editor,
               files := F.map (fun pc => { path := pc.1, content := pc.2 }),
               initialised := true } := by
  unfold Editor.handleMessage
  rw [if_pos h, hF]
  simp [hi]

theorem hm_code (u : String) (s : ClientState) (m : Msg) (p : String)
    (hm : m.type = "code") (hp : m.path = some p) (hne : p ≠ "") :
    Editor.handleMessage u s m =
      { s with files := (s.files.map
          (fun f => if f.path = p then { f with content := m.value.getD "" } else f)) } := by
  unfold Editor.handleMessage
  have h1 : m.type ≠ "ready" := by simp [hm]
  have h2 : m.type ≠ "turn_update" := by simp [hm]
  have h3 : m.type ≠ "request_turn" := by simp [hm]
  have h4 : m.type ≠ "deny_turn" := by simp [hm]
  rw [if_neg h1, if_neg h2, if_neg h3, if_neg h4, if_pos hm, hp]
  simp [hne]

theorem hm_file_create (u : String) (s : ClientState) (m : Msg) (p : String)
    (hm : m.type = "file_create") (hp : m.path = some p) (hne : p ≠ "") :
    Editor.handleMessage u s m =
      { s with files :=
          (if s.files.any (fun f => f.path = p) then
            (s.files.map
              (fun f => if f.path = p then { f with content := m.content.getD "" } else f))
          else s.files ++ [{ path := p, content := m.content.getD "" }]) } := by
  unfold Editor.handleMessage
  have h1 : m.type ≠ "ready" := by simp [hm]
  have h2 : m.type ≠ "turn_update" := by simp [hm]
  have h3 : m.type ≠ "request_turn" := by simp [hm]
  have h4 : m.type ≠ "deny_turn" := by simp [hm]
  have h5 : m.type ≠ "code" := by simp [hm]
  rw [if_neg h1, if_neg h2, if_neg h3, if_neg h4, if_neg h5, if_pos hm, hp]
  simp [hne]

theorem hm_suggestion (u : String) (s : ClientState) (m : Msg)
    (hm : m.type = "suggestion") :
    Editor.handleMessage u s m =
      (if s.editor = some u then { s with suggestions := s.suggestions ++ [m] } else s) := by
  unfold Editor.handleMessage
  have h1 : m.type ≠ "ready" := by simp [hm]
  have h2 : m.type ≠ "turn_update" := by simp [hm]
  have h3 : m.type ≠ "request_turn" := by simp [hm]
  have h4 : m.type ≠ "deny_turn" := by simp [hm]
  have h5 : m.type ≠ "code" := by simp [hm]
  have h6 : m.type ≠ "file_create" := by simp [hm]
  rw [if_neg h1, if_neg h2, if_neg h3, if_neg h4, if_neg h5, if_neg h6, if_pos hm]

/-- After a ready envelope has been applied once, processing any further
ready envelopes leaves the file list and the initialised flag unchanged. -/
theorem ready_run_files (u : String) (t : ClientState) (ms : List Msg)
    (ht : t.initialised = true) (hms : ∀ m ∈ ms, m.type = "ready") :
    (run u t ms).files = t.files ∧ (run u t ms).initialised = true := by
  induction ms generalizing t with
  | nil => exact ⟨rfl, ht⟩
  | cons m rest ih =>
      have hm : m.type = "ready" := hms m (List.mem_cons_self m rest)
      have hstep := hm_ready_initialised u t m hm ht
      have hrest : ∀ m2 ∈ rest, m2.type = "ready" :=
        fun m2 h2 => hms m2 (List.mem_cons_of_mem m h2)
      have := ih (Editor.handleMessage u t m) (by rw [hstep]; exact ht) hrest
      constructor
      · rw [run_cons, this.1, hstep]
      · rw [run_cons]; exact this.2

/-- One valid step preserves the client invariant. -/
theorem inv_step (u : String) (s : ClientState) (m : Msg)
    (hInv : Inv s) (hv : ValidMsg s m) :
    Inv (Editor.handleMessage u s m) := by
  obtain ⟨hnd, hed⟩ := hInv
  by_cases h1 : m.type = "ready"
  · have hreq : s.requests = [] := hv.2 h1
    constructor
    · rw [hm_requests_ready u s m h1, hreq]; exact List.nodup_nil
    · intro x hx
      rw [hm_requests_ready u s m h1, hreq] at hx
      exact absurd hx (List.not_mem_nil x)
  · by_cases h2 : m.type = "turn_update"
    · rw [hm_turn_update u s m h2]
      constructor
      · exact hnd.filter _
      · intro x hx
        have hne := List.of_mem_filter hx
        exact Ne.symm (by simpa using hne)
    · by_cases h3 : m.type = "request_turn"
      · rw [hm_request_turn u s m h3]
        cases hu : m.user with
        | none => exact ⟨hnd, hed⟩
        | some x =>
            show Inv (if s.editor = some u ∧ x ∉ s.requests then
              { s with requests := s.requests ++ [x] } else s)
            by_cases hc : s.editor = some u ∧ x ∉ s.requests
            · rw [if_pos hc]
              have hxu : x ≠ u := by
                intro hxeq
                apply hv.1 h3
                rw [hu, hxeq, hc.1]
              constructor
              · simp only [List.nodup_append, List.nodup_cons, List.nodup_nil]
                exact ⟨hnd, by simp, by simpa using hc.2⟩
              · intro y hy
                simp only [List.mem_append, List.mem_singleton] at hy
                cases hy with
                | inl hy => exact hed y hy
                | inr hy => subst hy; rw [hc.1]; simpa using (Ne.symm hxu)
            · rw [if_neg hc]; exact ⟨hnd, hed⟩
      · obtain ⟨hr, he⟩ := hm_other u s m h1 h2 h3
        constructor
        · rw [hr]; exact hnd
        · intro x hx
          rw [hr] at hx
          rw [he]
          exact hed x hx

/-- The invariant holds at every state reachable by a valid trace. -/
theorem inv_run (u : String) (s : ClientState) (ms : List Msg)
    (hInv : Inv s) (hv : validFrom u s ms) :
    Inv (run u s ms) := by
  induction ms generalizing s with
  | nil => exact hInv
  | cons m rest ih =>
      obtain ⟨hm, hrest⟩ := hv
      exact ih (Editor.handleMessage u s m) (inv_step u s m hInv hm) hrest

/-- Processing a request_turn envelope never introduces a duplicate in the
pending request list, valid environment or not. -/
theorem hm_request_turn_nodup (u : String) (t : ClientState) (m : Msg)
    (hm : m.type = "request_turn") (hnd : t.requests.Nodup) :
    (Editor.handleMessage u t m).requests.Nodup := by
  rw [hm_request_turn u t m hm]
  cases hu : m.user with
  | none => exact hnd
  | some x =>
      show (if t.editor = some u ∧ x ∉ t.requests then
        { t with requests := t.requests ++ [x] } else t).requests.Nodup
      by_cases hc : t.editor = some u ∧ x ∉ t.requests
      · rw [if_pos hc]
        simp only [List.nodup_append, List.nodup_cons, List.nodup_nil]
        exact ⟨hnd, by simp, by simpa using hc.2⟩
      · rw [if_neg hc]; exact hnd

/-- C1: in every client state reachable by a valid trace, the lease holder
is absent or exactly one identity and never appears in the pending request
list; processing a turn_update envelope with new editor e removes e from
the request list, and processing request_turn never inserts a duplicate
identity. -/
theorem claim1_lease_request_invariant (username : String) (s : ClientState)
    (ms : List Msg) (hInv : Inv s) (hv : validFrom username s ms) :
    ((run username s ms).editor = none ∨ ∃ e, (run username s ms).editor = some e) ∧
    Inv (run username s ms) ∧
    (∀ m : Msg, m.type = "turn_update" →
       ∀ x ∈ (Editor.handleMessage username (run username s ms) m).requests,
         some x ≠ m.editor) ∧
    (∀ m : Msg, m.type = "request_turn" →
       (Editor.handleMessage username (run username s ms) m).requests.Nodup) := by
  have hinv := inv_run username s ms hInv hv
  refine ⟨?_, hinv, ?_, ?_⟩
  · cases hE : (run username s ms).editor with
    | none => exact Or.inl rfl
    | some e => exact Or.inr ⟨e, rfl⟩
  · intro m hm x hx
    rw [hm_turn_update username _ m hm] at hx
    have hne := List.of_mem_filter hx
    simpa using hne
  · intro m hm
    exact hm_request_turn_nodup username _ m hm hinv.1

/-- Witness for C1 at a concrete valid trace. -/
theorem claim1_witness :
    Inv initState ∧ validFrom "alice" initState traceW ∧
    Inv (run "alice" initState traceW) := by
  have hv : validFrom "alice" initState traceW := by
    simp only [traceW, validFrom_cons]
    exact ⟨by decide, by decide, validFrom_nil _ _⟩
  exact ⟨by decide, hv,
    (claim1_lease_request_invariant "alice" initState traceW (by decide) hv).2.1⟩

/-- C2: an edit attempt by anyone whose username differs from the recorded
editor, or with no file selected, changes no file content and emits no code
envelope: onChange returns the state unchanged with nothing sent. -/
theorem claim2_onchange_noop (username : String) (s : ClientState) (v : String)
    (h : s.editor ≠ some username ∨ s.currentFile = none) :
    Editor.onChange username s v = (s, []) := by
  unfold Editor.onChange
  split
  · rfl
  · rename_i cf heq
    have hor : s.editor ≠ some username ∨ cf = "" := by
      cases h with
      | inl h1 => exact Or.inl h1
      | inr h1 => rw [heq] at h1; exact Option.noConfusion h1
    rw [if_pos hor]

/-- Witness for C2: bob is not the recorded editor of sAlice. -/
theorem claim2_witness :
    (sAlice.editor ≠ some "bob" ∨ sAlice.currentFile = none) ∧
    Editor.onChange "bob" sAlice "zz" = (sAlice, []) :=
  ⟨Or.inl (by decide), claim2_onchange_noop "bob" sAlice "zz" (Or.inl (by decide))⟩

/-- C8: requestTurn invoked while the local username equals the recorded
editor sends no envelope and leaves the client state unchanged. -/
theorem claim8_requestturn_noop (username : String) (s : ClientState)
    (h : s.editor = some username) :
    Editor.requestTurn username s = (s, []) := by
  unfold Editor.requestTurn
  rw [if_pos h]

/-- Witness for C8: alice already holds the lease in sAlice. -/
theorem claim8_witness :
    sAlice.editor = some "alice" ∧ Editor.requestTurn "alice" sAlice = (sAlice, []) :=
  ⟨rfl, claim8_requestturn_noop "alice" sAlice rfl⟩

/-- C9: over a sequence of incoming ready envelopes, only the first one
sets the file list from its snapshot; every later ready envelope leaves the
file list unchanged, though it still updates the displayed editor. -/
theorem claim9_ready_snapshot_once (u : String) (s : ClientState) (m : Msg)
    (ms : List Msg) (F : List (String × String))
    (h0 : s.initialised = false) (hm : m.type = "ready") (hF : m.files = some F)
    (hms : ∀ m2 ∈ ms, m2.type = "ready") :
    (Editor.handleMessage u s m).files
        = F.map (fun pc => { path := pc.1, content := pc.2 }) ∧
    (run u s (m :: ms)).files = (Editor.handleMessage u s m).files ∧
    (∀ t : ClientState, ∀ m2 : Msg, m2.type = "ready" → t.initialised = true →
       (Editor.handleMessage u t m2).files = t.files ∧
       (Editor.handleMessage u t m2).editor = jsOrNull m2.editor) := by
  have hstep := hm_ready_first u s m F hm h0 hF
  refine ⟨by rw [hstep], ?_, ?_⟩
  · rw [run_cons]
    have hinit : (Editor.handleMessage u s m).initialised = true := by rw [hstep]
    exact (ready_run_files u _ ms hinit hms).1
  · intro t m2 hm2 ht2
    have h2 := hm_ready_initialised u t m2 hm2 ht2
    exact ⟨by rw [h2], by rw [h2]⟩

/-- Witness for C9 at a concrete pair of ready envelopes. -/
theorem claim9_witness :
    (∀ m2 ∈ [readyW2], m2.type = "ready") ∧
    (run "alice" initState (readyW :: [readyW2])).files
        = (Editor.handleMessage "alice" initState readyW).files :=
  ⟨by decide,
   (claim9_ready_snapshot_once "alice" initState readyW [readyW2] [("a.py", "x=1")]
      rfl rfl rfl (by decide)).2.1⟩

/-- Updating the content of path p in a client file list moves getContent
at p to the new value exactly when p was present. -/
theorem getContent_set (p v : String) (files : List FileEntry) :
    getContent p (files.map (fun f => if f.path = p then { f with content := v } else f))
      = if (getContent p files).isSome then some v else none := by
  induction files with
  | nil => rfl
  | cons f rest ih =>
      by_cases hf : f.path = p
      · simp [getContent, hf]
      · simp [getContent, hf, ih]

/-- onChange in the sending case: the active editor with a selected
non-empty file path updates that file and sends one code envelope. -/
theorem onChange_editor (username cf v : String) (s : ClientState)
    (he : s.editor = some username) (hcf : s.currentFile = some cf) (hne : cf ≠ "") :
    Editor.onChange username s v =
      ({ s with files := (s.files.map
           (fun f => if f.path = cf then { f with content := v } else f)) },
       [{ type := "code", path := some cf, value := some v }]) := by
  unfold Editor.onChange
  split
  · rename_i heq; rw [hcf] at heq; exact Option.noConfusion heq
  · rename_i cf2 heq
    rw [hcf] at heq
    injection heq with heq2
    subst heq2
    rw [if_neg (not_or.mpr ⟨not_not_intro he, hne⟩)]

/-- C5 counterexample: the code envelope the client sends for an edit has
no content field at all; the text travels in the value field. -/
theorem claim5_counterexample :
    (Editor.onChange "alice" sAlice "x=2").2.map Msg.type = ["code"] ∧
    (Editor.onChange "alice" sAlice "x=2").2.map Msg.content = [none] ∧
    (Editor.onChange "alice" sAlice "x=2").2.map Msg.value = [some "x=2"] := by
  decide

/-- C5 amended: every code envelope carries the fields path and value (not
content), and the value field names the new full text of the file at path,
both for the envelope an edit sends and for an applied code broadcast. -/
theorem claim5_code_value_field (username cf v : String) (s : ClientState)
    (he : s.editor = some username) (hcf : s.currentFile = some cf) (hne : cf ≠ "") :
    (Editor.onChange username s v).2
        = [{ type := "code", path := some cf, value := some v }] ∧
    ((getContent cf s.files).isSome = true →
       getContent cf (Editor.onChange username s v).1.files = some v) ∧
    (∀ (u2 : String) (t : ClientState) (m : Msg) (p w : String),
       m.type = "code" → m.path = some p → p ≠ "" → m.value = some w →
       (getContent p t.files).isSome = true →
       getContent p (Editor.handleMessage u2 t m).files = some w) := by
  have hoc := onChange_editor username cf v s he hcf hne
  refine ⟨by rw [hoc], ?_, ?_⟩
  · intro hsome
    rw [hoc]
    show getContent cf (s.files.map
      (fun f => if f.path = cf then { f with content := v } else f)) = some v
    rw [getContent_set, if_pos hsome]
  · intro u2 t m p w hm hp hpne hw hsome
    rw [hm_code u2 t m p hm hp hpne]
    show getContent p (t.files.map
      (fun f => if f.path = p then { f with content := m.value.getD "" } else f)) = some w
    rw [hw]
    show getContent p (t.files.map
      (fun f => if f.path = p then { f with content := w } else f)) = some w
    rw [getContent_set, if_pos hsome]

/-- Witness for C5 amended at a concrete edit by the lease holder. -/
theorem claim5_witness :
    sAlice.editor = some "alice" ∧
    (Editor.onChange "alice" sAlice "x=2").2
        = [{ type := "code", path := some "a.py", value := some "x=2" }] :=
  ⟨rfl, (claim5_code_value_field "alice" "a.py" "x=2" sAlice rfl rfl (by decide)).1⟩

/-- C3 counterexample: a file_create envelope whose path already exists
replaces that file content at the client, and the upload handler does the
same, contradicting create-only semantics. -/
theorem claim3_counterexample :
    sAlice.files = [{ path := "a.py", content := "x=1" }] ∧
    (Editor.handleMessage "bob" sAlice
        { type := "file_create", path := some "a.py", content := some "x=2" }).files
      = [{ path := "a.py", content := "x=2" }] ∧
    (FileExplorer.onUploadStep "a.py" "x=2" sAlice.files).1
      = [{ path := "a.py", content := "x=2" }] := by
  decide

/-- C3 amended: file_create at the client is an upsert — a broadcast or an
upload for an existing path replaces that file content, a new path is
appended — and only the manual createFile dialog refuses an existing
path, leaving everything unchanged and sending nothing. -/
theorem claim3_file_create_upsert (u p c : String) (s : ClientState) (m : Msg)
    (hm : m.type = "file_create") (hp : m.path = some p) (hne : p ≠ "")
    (hc : m.content = some c) :
    (s.files.any (fun f => f.path = p) = true →
       (Editor.handleMessage u s m).files
         = s.files.map (fun f => if f.path = p then { f with content := c } else f)) ∧
    (s.files.any (fun f => f.path = p) = false →
       (Editor.handleMessage u s m).files = s.files ++ [{ path := p, content := c }]) ∧
    (∀ files0 : List FileEntry, files0.any (fun f => f.path = p) = true →
       (FileExplorer.onUploadStep p c files0).1
         = files0.map (fun f => if f.path = p then { f with content := c } else f)) ∧
    (∀ (files0 : List FileEntry) (cur : Option String),
       files0.any (fun f => f.path = p) = true →
       FileExplorer.createFile (some p) files0 cur = (files0, cur, [])) := by
  have hmain := hm_file_create u s m p hm hp hne
  refine ⟨?_, ?_, ?_, ?_⟩
  · intro hex
    rw [hmain]
    simp [hex, hc]
  · intro hex
    rw [hmain]
    simp [hex, hc]
  · intro files0 hex
    unfold FileExplorer.onUploadStep
    simp [hex]
  · intro files0 cur hex
    unfold FileExplorer.createFile
    simp [hne, hex]

/-- Witness for C3 amended at a concrete existing path. -/
theorem claim3_witness :
    (sAlice.files.any (fun f => f.path = "a.py") = true) ∧
    (Editor.handleMessage "bob" sAlice
        { type := "file_create", path := some "a.py", content := some "x=2" }).files
      = sAlice.files.map
          (fun f => if f.path = "a.py" then { f with content := "x=2" } else f) :=
  ⟨by decide,
   (claim3_file_create_upsert "bob" "a.py" "x=2" sAlice
      { type := "file_create", path := some "a.py", content := some "x=2" }
      rfl rfl (by decide) rfl).1 (by decide)⟩

/-- C4: a suggestion envelope is appended to the visible list exactly at
the client whose username equals the recorded editor, and the spec-modelled
server delivers a submitted suggestion to the editor only, stores nothing
in the room state, and issues no durable write for it. -/
theorem claim4_suggestion_delivery (username : String) (s : ClientState) (m : Msg)
    (t : Server.RoomState) (a p c : String) (hm : m.type = "suggestion") :
    (s.editor = some username →
       Editor.handleMessage username s m
         = { s with suggestions := s.suggestions ++ [m] }) ∧
    (s.editor ≠ some username → Editor.handleMessage username s m = s) ∧
    ((Server.applyOp t (.submitSuggestion a p c)).1 = t) ∧
    (Server.persistCalls t (.submitSuggestion a p c) = []) ∧
    (∀ ev ∈ (Server.applyOp t (.submitSuggestion a p c)).2,
       ∃ e, t.editor = some e ∧ ev.mode = Server.Delivery.targeted e) := by
  have hs := hm_suggestion username s m hm
  refine ⟨?_, ?_, rfl, ?_, ?_⟩
  · intro he
    rw [hs, if_pos he]
  · intro he
    rw [hs, if_neg he]
  · unfold Server.persistCalls
    have hcond : (Server.applyOp t (.submitSuggestion a p c)).1.files = t.files := rfl
    rw [if_pos hcond]
  · intro ev hev
    have h2 : (Server.applyOp t (.submitSuggestion a p c)).2
        = (match t.editor with
           | some e => [{ mode := Server.Delivery.targeted e,
                          payload := { type := "suggestion", user := some a,
                                       path := some p, content := some c } }]
           | none => []) := rfl
    rw [h2] at hev
    cases hE : t.editor with
    | none => rw [hE] at hev; exact absurd hev (List.not_mem_nil ev)
    | some e =>
        rw [hE] at hev
        simp only [List.mem_singleton] at hev
        subst hev
        exact ⟨e, rfl, rfl⟩

/-- Witness for C4: alice, the editor, receives bob's suggestion, and the
server persists nothing on a suggestion. -/
theorem claim4_witness :
    (Editor.handleMessage "alice" sAlice sugMsg
       = { sAlice with suggestions := sAlice.suggestions ++ [sugMsg] }) ∧
    Server.persistCalls roomW (.submitSuggestion "bob" "a.py" "x=3") = [] :=
  ⟨(claim4_suggestion_delivery "alice" sAlice sugMsg roomW "bob" "a.py" "x=3" rfl).1 rfl,
   (claim4_suggestion_delivery "alice" sAlice sugMsg roomW "bob" "a.py" "x=3" rfl).2.2.2.1⟩

/-- safeSend on a connecting socket only queues the payload. -/
theorem safeSend_connecting (st : App.SocketState) (p : Msg)
    (h : st.readyState = .connecting) :
    App.safeSend st p = { st with pending := st.pending ++ [p] } := by
  unfold App.safeSend
  rw [h]

/-- A burst of safeSend calls on a connecting socket writes nothing on the
wire and queues the payloads in order. -/
theorem sendAll_connecting (st : App.SocketState) (ps : List Msg)
    (h : st.readyState = .connecting) :
    App.sendAll st ps = { st with pending := st.pending ++ ps } := by
  induction ps generalizing st with
  | nil => simp [App.sendAll]
  | cons p rest ih =>
      have h1 := safeSend_connecting st p h
      have h2 : (App.safeSend st p).readyState = .connecting := by rw [h1]; exact h
      calc App.sendAll st (p :: rest)
          = App.sendAll (App.safeSend st p) rest := rfl
        _ = { App.safeSend st p with
                pending := (App.safeSend st p).pending ++ rest } := ih _ h2
        _ = { st with pending := st.pending ++ (p :: rest) } := by rw [h1]; simp

/-- C10: payloads given to safeSend while the socket is connecting are all
queued, none dropped; the open event sends the join envelope first and then
the queued payloads in exactly their order; a payload given while OPEN is
written immediately. -/
theorem claim10_safe_send_queue (username : String) (st : App.SocketState)
    (ps : List Msg) (p : Msg) (hc : st.readyState = .connecting) :
    (App.sendAll st ps).sentWire = st.sentWire ∧
    (App.sendAll st ps).pending = st.pending ++ ps ∧
    (App.onOpen username (App.sendAll st ps)).sentWire
        = st.sentWire ++ [App.joinMsg username] ++ st.pending ++ ps ∧
    (∀ st2 : App.SocketState, st2.readyState = .opened →
        App.safeSend st2 p = { st2 with sentWire := st2.sentWire ++ [p] }) := by
  have hall := sendAll_connecting st ps hc
  refine ⟨by rw [hall], by rw [hall], ?_, ?_⟩
  · rw [hall]
    unfold App.onOpen
    simp [List.append_assoc]
  · intro st2 h2
    unfold App.safeSend
    rw [h2]

/-- Witness for C10 at a fresh connecting socket with one queued chat
payload. -/
theorem claim10_witness :
    sock0.readyState = App.ReadyState.connecting ∧
    (App.onOpen "alice" (App.sendAll sock0 [chatW])).sentWire
      = sock0.sentWire ++ [App.joinMsg "alice"] ++ sock0.pending ++ [chatW] :=
  ⟨rfl, (claim10_safe_send_queue "alice" sock0 [chatW] chatW rfl).2.2.1⟩

/-- C6 counterexample: the alternative editor requestTurn emits take_turn
and the chat box emits chat, both outside the closed router set of the
spec table. -/
theorem claim6_counterexample :
    (EditorAlt.requestTurn "alice").map Msg.type = ["take_turn"] ∧
    "take_turn" ∉ allowedTypes ∧
    (Chat.sendMessage "alice" "hi").1.map Msg.type = ["chat"] ∧
    "chat" ∉ allowedTypes := by
  decide

/-- The envelopes onChange can send: nothing, or one code envelope. -/
theorem onChange_msgs (username v : String) (s : ClientState) :
    (Editor.onChange username s v).2 = [] ∨
    ∃ cf, (Editor.onChange username s v).2
        = [{ type := "code", path := some cf, value := some v }] := by
  unfold Editor.onChange
  split
  · exact Or.inl rfl
  · rename_i cf heq
    split
    · exact Or.inl rfl
    · exact Or.inr ⟨cf, rfl⟩

/-- The envelopes requestTurn can send: nothing, or one request_turn. -/
theorem requestTurn_msgs (username : String) (s : ClientState) :
    (Editor.requestTurn username s).2 = [] ∨
    (Editor.requestTurn username s).2
        = [{ type := "request_turn", user := some username }] := by
  unfold Editor.requestTurn
  split
  · exact Or.inl rfl
  · exact Or.inr rfl

/-- The envelopes proposeChange can send: nothing, or one suggestion. -/
theorem proposeChange_msgs (username : String) (s : ClientState) (pr : Option String) :
    Editor.proposeChange username s pr = [] ∨
    ∃ cf sg, Editor.proposeChange username s pr
        = [{ type := "suggestion", user := some username,
             path := some cf, value := some sg }] := by
  unfold Editor.proposeChange
  split
  · exact Or.inl rfl
  · rename_i cf heq
    split
    · exact Or.inl rfl
    · split
      · rename_i sg
        split
        · exact Or.inl rfl
        · exact Or.inr ⟨cf, sg, rfl⟩
      · exact Or.inl rfl

/-- The envelopes the suggestion accept callback can send: nothing, or one
code envelope. -/
theorem acceptSuggestion_msgs (username : String) (s : ClientState) (sug : Msg) :
    (Editor.acceptSuggestion username s sug).2 = [] ∨
    ∃ p, (Editor.acceptSuggestion username s sug).2
        = [{ type := "code", path := some p, value := sug.value }] := by
  unfold Editor.acceptSuggestion
  split
  · exact Or.inl rfl
  · split
    · exact Or.inl rfl
    · split
      · rename_i p heq
        exact Or.inr ⟨p, rfl⟩
      · exact Or.inl rfl

/-- The envelopes the manual createFile can send: nothing, or one
file_create. -/
theorem createFile_msgs (pr : Option String) (files : List FileEntry)
    (cur : Option String) :
    (FileExplorer.createFile pr files cur).2.2 = [] ∨
    ∃ p, (FileExplorer.createFile pr files cur).2.2
        = [{ type := "file_create", path := some p, content := some "" }] := by
  unfold FileExplorer.createFile
  split
  · exact Or.inl rfl
  · rename_i p
    split
    · exact Or.inl rfl
    · split
      · exact Or.inl rfl
      · exact Or.inr ⟨p, rfl⟩

/-- The envelopes the chat box can send: nothing, or one chat envelope. -/
theorem sendMessage_msgs (username input : String) :
    (Chat.sendMessage username input).1 = [] ∨
    ∃ w, (Chat.sendMessage username input).1
        = [{ type := "chat", value := some w }] := by
  unfold Chat.sendMessage
  split
  · exact Or.inl rfl
  · exact Or.inr ⟨_, rfl⟩

/-- C6 amended: every envelope any client send site emits has a type in the
spec router set extended with chat and take_turn. -/
theorem claim6_emitted_types (username target p c v text : String) (s : ClientState)
    (pr : Option String) (files : List FileEntry) (cur : Option String) (sug : Msg) :
    (∀ m2 ∈ (Editor.onChange username s v).2, m2.type ∈ emittedTypes) ∧
    (∀ m2 ∈ (Editor.requestTurn username s).2, m2.type ∈ emittedTypes) ∧
    (∀ m2 ∈ (Editor.approveTurn target s).2, m2.type ∈ emittedTypes) ∧
    (∀ m2 ∈ (Editor.denyTurn target s).2, m2.type ∈ emittedTypes) ∧
    (∀ m2 ∈ Editor.proposeChange username s pr, m2.type ∈ emittedTypes) ∧
    (∀ m2 ∈ (Editor.acceptSuggestion username s sug).2, m2.type ∈ emittedTypes) ∧
    (∀ m2 ∈ (FileExplorer.createFile pr files cur).2.2, m2.type ∈ emittedTypes) ∧
    (∀ m2 ∈ (FileExplorer.onUploadStep p c files).2, m2.type ∈ emittedTypes) ∧
    (∀ m2 ∈ (Chat.sendMessage username text).1, m2.type ∈ emittedTypes) ∧
    (∀ m2 ∈ EditorAlt.requestTurn username, m2.type ∈ emittedTypes) ∧
    (App.joinMsg username).type ∈ emittedTypes := by
  refine ⟨?_, ?_, ?_, ?_, ?_, ?_, ?_, ?_, ?_, ?_, ?_⟩
  · intro m2 hm2
    rcases onChange_msgs username v s with h | ⟨cf, h⟩ <;> rw [h] at hm2
    · exact absurd hm2 (List.not_mem_nil m2)
    · simp only [List.mem_singleton] at hm2
      subst hm2
      show "code" ∈ emittedTypes
      decide
  · intro m2 hm2
    rcases requestTurn_msgs username s with h | h <;> rw [h] at hm2
    · exact absurd hm2 (List.not_mem_nil m2)
    · simp only [List.mem_singleton] at hm2
      subst hm2
      show "request_turn" ∈ emittedTypes
      decide
  · intro m2 hm2
    unfold Editor.approveTurn at hm2
    simp only [List.mem_singleton] at hm2
    subst hm2
    show "approve_turn" ∈ emittedTypes
    decide
  · intro m2 hm2
    unfold Editor.denyTurn at hm2
    simp only [List.mem_singleton] at hm2
    subst hm2
    show "deny_turn" ∈ emittedTypes
    decide
  · intro m2 hm2
    rcases proposeChange_msgs username s pr with h | ⟨cf, sg, h⟩ <;> rw [h] at hm2
    · exact absurd hm2 (List.not_mem_nil m2)
    · simp only [List.mem_singleton] at hm2
      subst hm2
      show "suggestion" ∈ emittedTypes
      decide
  · intro m2 hm2
    rcases acceptSuggestion_msgs username s sug with h | ⟨q, h⟩ <;> rw [h] at hm2
    · exact absurd hm2 (List.not_mem_nil m2)
    · simp only [List.mem_singleton] at hm2
      subst hm2
      show "code" ∈ emittedTypes
      decide
  · intro m2 hm2
    rcases createFile_msgs pr files cur with h | ⟨q, h⟩ <;> rw [h] at hm2
    · exact absurd hm2 (List.not_mem_nil m2)
    · simp only [List.mem_singleton] at hm2
      subst hm2
      show "file_create" ∈ emittedTypes
      decide
  · intro m2 hm2
    unfold FileExplorer.onUploadStep at hm2
    simp only [List.mem_singleton] at hm2
    subst hm2
    show "file_create" ∈ emittedTypes
    decide
  · intro m2 hm2
    rcases sendMessage_msgs username text with h | ⟨w, h⟩ <;> rw [h] at hm2
    · exact absurd hm2 (List.not_mem_nil m2)
    · simp only [List.mem_singleton] at hm2
      subst hm2
      show "chat" ∈ emittedTypes
      decide
  · intro m2 hm2
    unfold EditorAlt.requestTurn at hm2
    simp only [List.mem_singleton] at hm2
    subst hm2
    show "take_turn" ∈ emittedTypes
    decide
  · show "join" ∈ emittedTypes
    decide

/-- Witness for C6 amended: the join envelope type is in the extended
set. -/
theorem claim6_witness :
    (App.joinMsg "alice").type ∈ emittedTypes :=
  (claim6_emitted_types "alice" "bob" "a.py" "x=1" "v" "hi" sAlice (some "f.py")
     [] none sugMsg).2.2.2.2.2.2.2.2.2.2

/-- A path found in a file map is still found, with the same entry, after
appending entries on the right. -/
theorem lookupFile_append_left (p : String) (l1 l2 : List (String × Server.ServerFile))
    (e : Server.ServerFile) (h : Server.lookupFile p l1 = some e) :
    Server.lookupFile p (l1 ++ l2) = some e := by
  induction l1 with
  | nil => simp [Server.lookupFile] at h
  | cons kv rest ih =>
      by_cases hk : kv.1 = p
      · simp only [Server.lookupFile, hk, if_pos] at h ⊢
        simpa using h
      · simp only [List.cons_append, Server.lookupFile, hk, if_neg,
          not_false_iff, ite_false] at h ⊢
        exact ih h

/-- Updating a present path replaces its entry. -/
theorem lookupFile_update_self (p : String) (e2 : Server.ServerFile)
    (files : List (String × Server.ServerFile)) (e : Server.ServerFile)
    (h : Server.lookupFile p files = some e) :
    Server.lookupFile p (Server.updateFile p e2 files) = some e2 := by
  induction files with
  | nil => simp [Server.lookupFile] at h
  | cons kv rest ih =>
      by_cases hk : kv.1 = p
      · simp [Server.updateFile, Server.lookupFile, hk]
      · simp only [Server.updateFile, hk, if_neg, not_false_iff, ite_false] at h ⊢
        simp only [Server.lookupFile, hk, if_neg, not_false_iff, ite_false] at h ⊢
        exact ih h

/-- Updating one path leaves lookups of any other path unchanged. -/
theorem lookupFile_update_other (p q : String) (hne : q ≠ p)
    (e2 : Server.ServerFile) (files : List (String × Server.ServerFile)) :
    Server.lookupFile q (Server.updateFile p e2 files)
      = Server.lookupFile q files := by
  induction files with
  | nil => rfl
  | cons kv rest ih =>
      by_cases hk : kv.1 = p
      · have hpq : ¬(p = q) := fun hh => hne hh.symm
        simp [Server.updateFile, Server.lookupFile, hk, hpq, ih]
      · simp only [Server.updateFile, hk, if_neg, not_false_iff, ite_false]
        by_cases hq : kv.1 = q
        · simp [Server.lookupFile, hq]
        · simp [Server.lookupFile, hq, ih]

/-- One room operation never lowers the version of a present path, and
leaves it exactly unchanged unless the operation is an accepted write of
that path. -/
theorem version_step (t : Server.RoomState) (op : Server.RoomOp) (p : String)
    (e : Server.ServerFile) (hp : Server.lookupFile p t.files = some e) :
    ∃ e2, Server.lookupFile p ((Server.applyOp t op).1).files = some e2 ∧
      e.version ≤ e2.version ∧
      (¬ acceptedEditOn t op p → e2.version = e.version) := by
  cases op with
  | join i => exact ⟨e, hp, le_refl _, fun _ => rfl⟩
  | createFile p2 c2 =>
      refine ⟨e, ?_, le_refl _, fun _ => rfl⟩
      simp only [Server.applyOp]
      split
      · exact hp
      · exact lookupFile_append_left p t.files _ e hp
  | editFile id p2 c2 =>
      simp only [Server.applyOp]
      by_cases hed : t.editor = some id
      · rw [if_pos hed]
        cases hl : Server.lookupFile p2 t.files with
        | none => exact ⟨e, hp, le_refl _, fun _ => rfl⟩
        | some e3 =>
            by_cases hpp : p2 = p
            · subst hpp
              rw [hp] at hl
              injection hl with he3
              subst he3
              refine ⟨{ content := c2, version := e.version + 1 },
                lookupFile_update_self p2 _ t.files e hp, Nat.le_succ _, ?_⟩
              intro hnacc
              exact absurd ⟨id, c2, rfl, hed⟩ hnacc
            · refine ⟨e, ?_, le_refl _, fun _ => rfl⟩
              show Server.lookupFile p (Server.updateFile p2 _ t.files) = some e
              rw [lookupFile_update_other p2 p (Ne.symm hpp) _ t.files]
              exact hp
      · rw [if_neg hed]
        exact ⟨e, hp, le_refl _, fun _ => rfl⟩
  | requestTurn i =>
      refine ⟨e, ?_, le_refl _, fun _ => rfl⟩
      simp only [Server.applyOp]
      repeat' split
      all_goals exact hp
  | approveTurn i tg =>
      refine ⟨e, ?_, le_refl _, fun _ => rfl⟩
      simp only [Server.applyOp]
      repeat' split
      all_goals exact hp
  | denyTurn i tg =>
      refine ⟨e, ?_, le_refl _, fun _ => rfl⟩
      simp only [Server.applyOp]
      repeat' split
      all_goals exact hp
  | disconnect i =>
      refine ⟨e, ?_, le_refl _, fun _ => rfl⟩
      simp only [Server.applyOp]
      repeat' split
      all_goals exact hp
  | submitSuggestion a p2 c2 => exact ⟨e, hp, le_refl _, fun _ => rfl⟩

theorem runOps_cons (t : Server.RoomState) (op : Server.RoomOp)
    (rest : List Server.RoomOp) :
    Server.runOps t (op :: rest) = Server.runOps ((Server.applyOp t op).1) rest := rfl

/-- Versions of a present path never decrease over any operation
sequence. -/
theorem version_run (t : Server.RoomState) (ops : List Server.RoomOp) (p : String)
    (e : Server.ServerFile) (hp : Server.lookupFile p t.files = some e) :
    ∃ e2, Server.lookupFile p ((Server.runOps t ops)).files = some e2 ∧
      e.version ≤ e2.version := by
  induction ops generalizing t e with
  | nil => exact ⟨e, hp, le_refl _⟩
  | cons op rest ih =>
      obtain ⟨e1, h1, hle1, _⟩ := version_step t op p e hp
      obtain ⟨e2, h2, hle2⟩ := ih _ e1 h1
      exact ⟨e2, by rw [runOps_cons]; exact h2, le_trans hle1 hle2⟩

/-- C7: in the spec-modelled room state, each file version is incremented
by exactly one on every accepted write, unchanged by every other
operation, and non-decreasing per path over any operation sequence. -/
theorem claim7_version_counter (t : Server.RoomState) (ops : List Server.RoomOp)
    (identity p c : String) (e : Server.ServerFile)
    (hp : Server.lookupFile p t.files = some e) :
    (t.editor = some identity →
       Server.lookupFile p ((Server.applyOp t (.editFile identity p c)).1).files
         = some { content := c, version := e.version + 1 }) ∧
    (∀ op : Server.RoomOp, ¬ acceptedEditOn t op p →
       ∃ e2, Server.lookupFile p ((Server.applyOp t op).1).files = some e2 ∧
         e2.version = e.version) ∧
    (∃ e3, Server.lookupFile p ((Server.runOps t ops)).files = some e3 ∧
       e.version ≤ e3.version) := by
  refine ⟨?_, ?_, version_run t ops p e hp⟩
  · intro hed
    simp only [Server.applyOp]
    rw [if_pos hed, hp]
    exact lookupFile_update_self p _ t.files e hp
  · intro op hnacc
    obtain ⟨e2, h2, _, heq⟩ := version_step t op p e hp
    exact ⟨e2, h2, heq hnacc⟩

/-- Witness for C7: editing a.py in roomW bumps its version from 1 to 2. -/
theorem claim7_witness :
    Server.lookupFile "a.py" roomW.files = some { content := "x=1", version := 1 } ∧
    Server.lookupFile "a.py"
        ((Server.applyOp roomW (.editFile "alice" "a.py" "x=2")).1).files
      = some { content := "x=2", version := 2 } :=
  ⟨rfl,
   (claim7_version_counter roomW [] "alice" "a.py" "x=2"
      { content := "x=1", version := 1 } rfl).1 rfl⟩

end JoinCode
